import Mathlib

/-!
Verification of the ci-signal-report pipeline: a shallow embedding of the
Go sources (cmd/ci-reporter.go, pkg/ci-reporter/github-reporter.go,
pkg/ci-reporter/testgrid-reporter.go, pkg/ci-reporter/vars.go) together
with theorems about the embedded functions.

Conventions of the embedding:
  * Go strings are Lean `String`s; the handful of `strings.*` helpers the
    sources use (Contains, Title, ToUpper, ToLower, EqualFold, Replace,
    Repeat) are embedded below with ASCII case semantics — every string the
    sources compare case-insensitively is ASCII.
  * Go maps iterated by the sources are embedded as association lists; Go
    map iteration order is unspecified, so list order stands for one
    arbitrary interleaving and no theorem depends on it.
  * Channels fed by concurrent producers are embedded as the list of the
    values sent, in producer-spawn order (one representative of the
    nondeterministic fan-in order).
  * Machine floats only occur in `getDetails`, dividing two regex-parsed
    integers of at most two digits and comparing against 0.5, 0.8 and 5.0;
    for such small operands float comparison agrees exactly with rational
    comparison (the gap between a fraction p/r with r < 100 and the
    thresholds is far above double rounding error), so the embedding uses ℚ.
  * Failures: `log.Fatalf` terminates the whole process; it is embedded as
    an explicit `fatal` outcome.
-/

namespace CiReporter

/-! ### Go string primitives (ASCII semantics) -/

/-- Go `strings.Contains` on character lists: does `pat` occur as a
contiguous substring?  The empty pattern is contained in every string,
as in Go. -/
def hasSub (pat : List Char) : List Char → Bool
  | [] => pat.isEmpty
  | c :: t => pat.isPrefixOf (c :: t) || hasSub pat t

/-- Go `strings.Contains s sub`. -/
def goContains (s sub : String) : Bool :=
  hasSub sub.toList s.toList

/-- Go `strings.ToLower` (ASCII). -/
def goToLower (s : String) : String :=
  String.mk (s.toList.map Char.toLower)

/-- Go `strings.ToUpper` (ASCII). -/
def goToUpper (s : String) : String :=
  String.mk (s.toList.map Char.toUpper)

/-- Go `strings.EqualFold` (ASCII simple case folding). -/
def goEqualFold (a b : String) : Bool :=
  a.toList.map Char.toLower == b.toList.map Char.toLower

/-- Go `isSeparator` (strings/strings.go), the word-boundary test of
`strings.Title`: among ASCII runes exactly the characters other than
alphanumerics and underscore are separators (so a digit or `_` continues
a word); past ASCII, letters and digits are not separators and spaces
are — `unicode.IsSpace` is embedded as `Char.isWhitespace`, exact on the
ASCII scope of this file. -/
def goIsSeparator (c : Char) : Bool :=
  if c.toNat ≤ 0x7F then !(c.isDigit || c.isAlpha || c == '_')
  else c.isWhitespace

/-- Helper of `goTitle`: the Bool carries `isSeparator(prev)` over the
original runes; a rune standing after a separator begins a word and is
title-cased (`unicode.ToTitle` agrees with `toUpper` on ASCII). -/
def goTitleAux : Bool → List Char → List Char
  | _, [] => []
  | prevSep, c :: t => (if prevSep then c.toUpper else c) :: goTitleAux (goIsSeparator c) t

/-- Go `strings.Title`: title-cases every rune that begins a word, i.e.
stands after a separator; Go initialises `prev` to `' '`, a separator, so
the first rune begins a word. -/
def goTitle (s : String) : String :=
  String.mk (goTitleAux true s.toList)

/-- Go `strings.Replace s old "" -1` on character lists: delete every
leftmost, non-overlapping occurrence of `pat`.  With `old = ""` Go inserts
the empty replacement everywhere and returns `s` unchanged, which the
`pat = []` guard reproduces. -/
def removeAll (pat : List Char) (l : List Char) : List Char :=
  match l with
  | [] => []
  | c :: t =>
    if h : pat ≠ [] ∧ pat.isPrefixOf (c :: t) = true then
      removeAll pat ((c :: t).drop pat.length)
    else
      c :: removeAll pat t
termination_by l.length
decreasing_by
  · have hp : 0 < pat.length := List.length_pos.mpr h.1
    simp only [List.length_drop, List.length_cons]
    omega
  · simp

/-- Go `strings.Replace s old "" -1` on strings. -/
def removeAllStr (s pat : String) : String :=
  String.mk (removeAll pat.toList s.toList)

/-- Go `strings.Repeat s n`. -/
def goRepeat (s : String) (n : ℕ) : String :=
  String.join (List.replicate n s)

/-- A digit run read as a base-10 number, as `strconv.ParseFloat` reads the
1–2 digit groups produced by the recent-runs regex.  The empty string (the
Go code's zero value after a failed parse, whose error is only printed)
yields 0. -/
def digitsToNat (l : List Char) : ℕ :=
  l.foldl (fun acc c => 10 * acc + (c.toNat - 48)) 0

/-! ### Data model: github issues (cmd/ci-reporter.go) -/

/-- Go struct `Label`. -/
structure Label where
  name : String
  color : String := ""
deriving DecidableEq, Repr

/-- Go struct `Milestone`. -/
structure Milestone where
  title : String
deriving DecidableEq, Repr

/-- Go struct `GithubIssueElement`. -/
structure GithubIssueElement where
  htmlURL : String
  number : ℤ
  title : String := ""
  labels : List Label := []
  state : String := ""
  milestone : Option Milestone := none
  comments : ℤ := 0
  createdAt : String := ""
  updatedAt : String := ""
  closedAt : String := ""
deriving DecidableEq, Repr

/-- The per-issue test of `filterGithubIssues`: the loop folds `fine` over
the labels exactly as the Go code chains `fine = fine && !strings.Contains
(label.Name, …)`, then requires the issue's URL not to look like a pull
request. -/
def filterFine (i : GithubIssueElement) : Bool :=
  let fine := i.labels.foldl
    (fun fine label =>
      (((fine && !goContains label.name "priority/backlog")
          && !goContains label.name "triage/accepted")
          && !goContains label.name "lifecycle/rotten")
          && !goContains label.name "lifecycle/stale")
    true
  fine && !goContains i.htmlURL "pull"

/-- `filterGithubIssues` (cmd/ci-reporter.go).  The Go function stores the
surviving issues in a map keyed by issue number; the embedding keeps the
list of survivors in input order (the claims are about which issues
survive; the map's last-write-wins collapse of duplicate numbers is
orthogonal and not modelled). -/
def filterGithubIssues (issues : List GithubIssueElement) : List GithubIssueElement :=
  issues.filter filterFine

/-! ### Pagination (requestGithubIssues, cmd/ci-reporter.go) -/

/-- Outcome of the recursive page fetch: `fatal e` embeds `log.Fatalf`
(the whole process exits, no value reaches any caller), `ok n batches`
embeds a completed fetch that issued `n` page requests and sent `batches`
(each page's `filterGithubIssues` result) on the fan-in channel. -/
inductive FetchOutcome where
  | fatal (msg : String)
  | ok (requests : ℕ) (batches : List (List GithubIssueElement))
deriving DecidableEq, Repr

/-- `requestGithubIssues` (cmd/ci-reporter.go) run against a server whose
page-`k` response is `responses[k-1]`; pages past the end of the list are
empty (github returns `[]` past the last page).  A transport or decode
error on a page hits `log.Fatalf` (`fatal`).  A successful page is
filtered and sent; if the RAW page (before filtering) is non-empty the
next page is requested, so a page whose items are all filtered away still
spawns the next request.  Batches are listed in page order (one
representative of the concurrent fan-in order). -/
def requestGithubIssuesM : List (Except String (List GithubIssueElement)) → FetchOutcome
  | [] => .ok 1 [filterGithubIssues []]
  | .error e :: _ => .fatal e
  | .ok issues :: rest =>
    if issues.isEmpty then .ok 1 [filterGithubIssues issues]
    else
      match requestGithubIssuesM rest with
      | .fatal e => .fatal e
      | .ok n bs => .ok (n + 1) (filterGithubIssues issues :: bs)

/-- A result set of issues as github serves it in pages of `perPage` items:
the successive non-empty slices.  (The client never sees a page index
mismatch: page k of the result set is `(paginate perPage l)[k-1]`.) -/
def paginate (perPage : ℕ) (l : List GithubIssueElement) : List (List GithubIssueElement) :=
  if l = [] ∨ perPage = 0 then [] else l.take perPage :: paginate perPage (l.drop perPage)
termination_by l.length
decreasing_by
  simp only [not_or] at *
  rename_i h
  have : 0 < l.length := List.length_pos.mpr h.1
  have : 0 < perPage := Nat.pos_of_ne_zero h.2
  simp only [List.length_drop]
  omega

/-! ### Board columns (findCardsID, pkg/ci-reporter/github-reporter.go) -/

/-- Go `github.ProjectColumn`, with the two fields `findCardsID` reads:
`GetID` and the (pointer, hence optional) column name. -/
structure ProjectColumn where
  id : ℤ
  name : Option String
deriving DecidableEq, Repr

/-- How `findCardsID` can come back: a column id, the early `(0, err)`
return when listing the columns fails, or the runtime panic
`index out of range` from `resolvedColumns[0]` on an empty slice — the
no-match case returns no error value. -/
inductive FindCardsOutcome where
  | ok (id : ℤ)
  | apiError
  | indexPanic
deriving DecidableEq, Repr

/-- `findCardsID` (pkg/ci-reporter/github-reporter.go): filter the listed
columns by exact name match (a nil name never matches), sort the matches
ascending by id, take element 0.  Go's `sort.Slice` with the strict `<`
comparator produces a slice nondecreasing in id; it is embedded as
`mergeSort` with the corresponding `≤` comparator, observationally the
same for the only thing the source reads, the first element's id.
`resolvedColumns[0]` on an empty slice panics (`indexPanic`). -/
def findCardsID (listResult : Except Unit (List ProjectColumn)) (keyword : String) :
    FindCardsOutcome :=
  match listResult with
  | .error _ => .apiError
  | .ok cards =>
    let resolvedColumns := cards.filter (fun v => v.name == some keyword)
    match resolvedColumns.mergeSort (fun a b => decide (a.id ≤ b.id)) with
    | [] => .indexPanic
    | c :: _ => .ok c.id

/-! ### Card path (assembleCardRequests, pkg/ci-reporter/github-reporter.go) -/

/-- Go struct `ghIssueDetail`; labels are the dereferenced `*v.Name`
strings, the only label field the card path reads. -/
structure ghIssueDetail where
  number : ℤ
  htmlURL : String
  title : String
  labels : List String := []
deriving DecidableEq, Repr

/-- SIG extraction and normalization of the card path (the label loop of
`assembleCardRequests`): the FIRST label containing `sig/` (the loop
breaks) has every `sig/` occurrence removed and is title-cased; a result
case-equal to `cli` is upper-cased, one case-equal to `cluster-lifecycle`
is lower-cased.  With no matching label the overview keeps the zero value
`""`. -/
def cardSig (labels : List String) : String :=
  match labels.find? (fun name => goContains name "sig/") with
  | none => ""
  | some name =>
    let sig := goTitle (removeAllStr name "sig/")
    let sig := if goEqualFold sig "cli" then goToUpper sig else sig
    let sig := if goEqualFold sig "cluster-lifecycle" then goToLower sig else sig
    sig

/-- Go struct `ghIssueOverview`. -/
structure ghIssueOverview where
  url : String
  id : ℤ
  title : String
  sig : String := ""
deriving DecidableEq, Repr

/-- The record one card contributes in `assembleCardRequests`: the fetched
issue detail with `[Failing Test]` stripped from the title and the
card-path SIG. -/
def mkOverview (d : ghIssueDetail) : ghIssueOverview :=
  { url := d.htmlURL
    id := d.number
    title := removeAllStr d.title "[Failing Test]"
    sig := cardSig d.labels }

/-- Go `github.ProjectCard`, with the one field the card loop reads: the
optional (pointer) content URL. -/
structure ProjectCard where
  contentURL : Option String
deriving DecidableEq, Repr

/-- The card loop of `assembleCardRequests`: per card, nothing at all when
`ContentURL` is nil; otherwise one issue-detail fetch of `*card.ContentURL`
and one overview sent on the channel (a failed detail fetch is only
logged, the zero-value detail is still sent — `fetchDetail` is total).
Returns (the content URLs fetched, the overviews sent), in card order. -/
def assembleCardRequests (cards : List ProjectCard) (fetchDetail : String → ghIssueDetail) :
    List String × List ghIssueOverview :=
  match cards with
  | [] => ([], [])
  | card :: rest =>
    let r := assembleCardRequests rest fetchDetail
    match card.contentURL with
    | none => r
    | some u => (u :: r.1, mkOverview (fetchDetail u) :: r.2)

/-! ### Testgrid (pkg/ci-reporter/testgrid-reporter.go) -/

/-- Go `type OverallStatus string` and its constants. -/
abbrev OverallStatus := String

/-- Go constant `Total = "TOTAL"`. -/
def Total : OverallStatus := "TOTAL"

/-- Go constant `Failing = "FAILING"`. -/
def Failing : OverallStatus := "FAILING"

/-- Go constant `Flaky = "FLAKY"`. -/
def Flaky : OverallStatus := "FLAKY"

/-- Go constant `Passing = "PASSING"`. -/
def Passing : OverallStatus := "PASSING"

/-- Go constant `Stale = "STALE"`. -/
def Stale : OverallStatus := "STALE"

/-- Go struct `Test`, with the field the report reads (`TestName`). -/
structure Test where
  displayName : String := ""
  testName : String := ""
deriving DecidableEq, Repr

/-- Go struct `TestgridValue`, with the fields the report reads. -/
structure TestgridValue where
  alert : String := ""
  overallStatus : OverallStatus := ""
  status : String := ""
  tests : List Test := []
deriving DecidableEq, Repr

/-- Go constant `testgridReportSummary`. -/
def testgridReportSummary : ℤ := 0

/-- Go constant `testgridReportDetails`. -/
def testgridReportDetails : ℤ := 1

/-- The report record as the reporters populate it (`ReportDataRecord` with
the URL/ID/Title/Sig fields of the checked-in vars.go plus the
Status/Severity/Highlight/Notes fields the testgrid and github reporters
assign; the latter's declaration file is not among the staged sources, so
those fields follow their uses in the staged code). -/
structure ReportDataRecord where
  url : String := ""
  id : ℤ := 0
  title : String := ""
  sig : String := ""
  status : String := ""
  severity : ℕ := 0
  highlight : String := ""
  notes : List String := []
deriving DecidableEq, Repr

/-- Modelled from the spec: Severity is the ordinal
`{None=0, Light=1, Medium=2, High=3}` (§3 of the spec); the constant
declarations `LightSeverity` … the staged sources reference are not among
the staged files.  `LightSeverity = 1`. -/
def LightSeverity : ℕ := 1

/-- Modelled from the spec: `MediumSeverity = 2` (spec §3). -/
def MediumSeverity : ℕ := 2

/-- Modelled from the spec: `HighSeverity = 3` (spec §3). -/
def HighSeverity : ℕ := 3

/-- Modelled from the spec: the failing-status highlight marker
(`statusFailingEmoji`, declared outside the staged sources); its exact
glyph is presentation-only, no theorem depends on it. -/
def statusFailingEmoji : String := "[failing]"

/-- Modelled from the spec: the flaky-status highlight marker. -/
def statusFlakyEmoji : String := "[flaky]"

/-- Modelled from the spec: the new-test highlight marker (spec §4.4: the
marker differs between Failing, Flaky and new-test classifications). -/
def statusNewTestEmoji : String := "[new-test]"

/-- Modelled from the spec: the "stale-old" age marker of the issue path
(`statusOldEmoji`, declared outside the staged sources; spec §4.2). -/
def statusOldEmoji : String := "[stale-old]"

/-- Modelled from the spec: the "fresh" age marker of the issue path
(`statusNewEmoji`; spec §4.2). -/
def statusNewEmoji : String := "[fresh]"

/-- The per-dashboard status counts of `getSummary` (the Go code's
`statuses` map over the five `OverallStatus` keys). -/
structure StatusCounts where
  total : ℕ
  passing : ℕ
  failing : ℕ
  flaky : ℕ
  stale : ℕ
deriving DecidableEq, Repr

/-- Loop body of `getSummary`'s counting loop: Passing, Failing and Flaky
increment their own bucket, every other status increments Stale. -/
def countStep (acc : StatusCounts) (jv : String × TestgridValue) : StatusCounts :=
  if jv.2.overallStatus == Passing then { acc with passing := acc.passing + 1 }
  else if jv.2.overallStatus == Failing then { acc with failing := acc.failing + 1 }
  else if jv.2.overallStatus == Flaky then { acc with flaky := acc.flaky + 1 }
  else { acc with stale := acc.stale + 1 }

/-- The `statuses` map of `getSummary` after the counting loop: Total is
initialised to `len(jobs)`, the other buckets start at 0. -/
def countStatuses (jobs : List (String × TestgridValue)) : StatusCounts :=
  jobs.foldl countStep
    { total := jobs.length, passing := 0, failing := 0, flaky := 0, stale := 0 }

/-- `getSummary` (pkg/ci-reporter/testgrid-reporter.go): the aggregate
record, `ID = testgridReportSummary`, with one count line each for total,
passing, flaky and failing (in that order) and a stale line appended only
when the stale count is non-zero. -/
def getSummary (jobs : List (String × TestgridValue)) : ReportDataRecord :=
  let statuses := countStatuses jobs
  { id := testgridReportSummary
    notes :=
      [toString statuses.total ++ " jobs " ++ goToLower Total,
       toString statuses.passing ++ " jobs " ++ goToLower Passing,
       toString statuses.flaky ++ " jobs " ++ goToLower Flaky,
       toString statuses.failing ++ " jobs " ++ goToLower Failing]
        ++ if statuses.stale ≠ 0 then
            [toString statuses.stale ++ " jobs " ++ goToLower Stale]
          else [] }

/-- Go constant `thresholdWarning = 0.5` (rate at or below it is High). -/
def thresholdWarning : ℚ := 0.5

/-- Go constant `thresholdInfo = 0.8` (rate at or below it is Medium). -/
def thresholdInfo : ℚ := 0.8

/-- Go constant `newTestThreshhold = 5.0` (at most this many recent runs
makes a job a "new test"); the Go spelling is kept. -/
def newTestThreshhold : ℚ := 5.0

/-- The severity branch of `getDetails` over exact rationals (see the
float note in the file header): severity, and whether the highlight emoji
was overwritten by the new-test marker.  With `runs = 0` (failed parse)
the new-test branch fires before the division is consulted, exactly as in
Go, where `0/0` would be NaN. -/
def getDetailsSeverity (passes runs : ℚ) : ℕ × Bool :=
  if runs ≤ newTestThreshhold then (LightSeverity, true)
  else if passes / runs ≤ thresholdWarning then (HighSeverity, false)
  else if passes / runs ≤ thresholdInfo then (MediumSeverity, false)
  else (LightSeverity, false)

/-- Character class `\s` of Go regexp: `[\t\n\f\r ]`. -/
def isWs (c : Char) : Bool :=
  c == ' ' || c == '\t' || c == '\n' || c == '\x0c' || c == '\r'

/-- After the first digit group of the recent-runs pattern: match
`\s of \s` and then the second, greedy `\d{1,2}` group.  Returns that
group's digits. -/
def matchTail : List Char → Option (List Char)
  | w1 :: 'o' :: 'f' :: w2 :: rest =>
    if isWs w1 && isWs w2 then
      match rest with
      | a :: b :: _ => if a.isDigit then some (if b.isDigit then [a, b] else [a]) else none
      | [a] => if a.isDigit then some [a] else none
      | [] => none
    else none
  | _ => none

/-- Match of the recent-runs pattern `\d{1,2}\sof\s\d{1,2}` anchored at the
head of the list, with the greedy first group backtracking from two digits
to one, as Go regexp (Perl-style leftmost-first) matches it.  Returns
(passes digits, runs digits). -/
def matchAt : List Char → Option (List Char × List Char)
  | a :: b :: rest =>
    if a.isDigit && b.isDigit then
      match matchTail rest with
      | some runs => some ([a, b], runs)
      | none =>
        match matchTail (b :: rest) with
        | some runs => some ([a], runs)
        | none => none
    else if a.isDigit then
      match matchTail (b :: rest) with
      | some runs => some ([a], runs)
      | none => none
    else none
  | _ => none

/-- Leftmost match of the recent-runs pattern (`FindStringSubmatch`): try
each start position left to right. -/
def findNumOfNum : List Char → Option (List Char × List Char)
  | [] => none
  | c :: t =>
    match matchAt (c :: t) with
    | some r => some r
    | none => findNumOfNum t

/-- `getRegexParams` specialised to the recent-runs pattern of
`getDetails`: the (passes, runs) capture groups as strings; with no match
the Go map lookups yield the zero value `""`. -/
def latestExecParams (status : String) : String × String :=
  match findNumOfNum status.toList with
  | some (p, r) => (String.mk p, String.mk r)
  | none => ("", "")

/-- Longest leading run of ASCII letters, and the rest. -/
def takeAlpha : List Char → List Char × List Char
  | [] => ([], [])
  | c :: t =>
    if c.isAlpha then
      let r := takeAlpha t
      (c :: r.1, r.2)
    else ([], c :: t)

theorem takeAlpha_snd_length (l : List Char) : (takeAlpha l).2.length ≤ l.length := by
  induction l with
  | nil => simp [takeAlpha]
  | cons c t ih =>
    by_cases h : c.isAlpha <;> simp [takeAlpha, h] <;> omega

/-- `FindAllString` of the pattern `sig-[a-zA-Z]+`: leftmost,
non-overlapping, greedy. -/
def findAllSigs (l : List Char) : List String :=
  match l with
  | 's' :: 'i' :: 'g' :: '-' :: rest =>
    match h : takeAlpha rest with
    | ([], _) => findAllSigs ('i' :: 'g' :: '-' :: rest)
    | (c :: run, rest2) =>
      String.mk ('s' :: 'i' :: 'g' :: '-' :: c :: run) :: findAllSigs rest2
  | _ :: t => findAllSigs t
  | [] => []
termination_by l.length
decreasing_by
  · simp
  · have h2 := takeAlpha_snd_length rest
    rw [h] at h2
    simp only [List.length_cons] at h2 ⊢
    omega
  · simp

/-- The SIG-involvement scan of `getDetails` for a failing job: every
`sig-<name>` match over all test names; the Go code counts them in a map
and prints the map's keys, so we keep the distinct sigs in first-occurrence
order as one representative of the nondeterministic key order. -/
def collectSigs (tests : List Test) : List String :=
  ((tests.map (fun t => findAllSigs t.testName.toList)).join).eraseDups

/-- `fmt.Sprintf "%v"` of the slice of sig keys. -/
def fmtSigs (sigs : List String) : String :=
  "[" ++ String.intercalate " " sigs ++ "]"

/-- `getDetails` (pkg/ci-reporter/testgrid-reporter.go): one detail record,
`ID = testgridReportDetails`, for a non-passing job: status/title/URL, the
failing-only sig notes, severity from the parsed recent passes/runs, the
highlight marker (failing, flaky, or new-test when the run count is at most
the new-test threshold) repeated `severity` times, and the
"passes of runs passed recently" note.  `emojisOff` only affects printing,
as in the source, where the parameter is unused in the record. -/
def getDetails (jobName : String) (jobData : TestgridValue) (jobBaseUrl : String)
    (_emojisOff : Bool) : ReportDataRecord :=
  let failingNotes : List String :=
    if jobData.overallStatus == Failing then
      ["Sig's involved " ++ fmtSigs (collectSigs jobData.tests),
       "Currently " ++ toString jobData.tests.length ++ " test are failing"]
    else []
  let latestExec := latestExecParams jobData.status
  let passes : ℚ := (digitsToNat latestExec.1.toList : ℚ)
  let runs : ℚ := (digitsToNat latestExec.2.toList : ℚ)
  let baseEmoji := if jobData.overallStatus == Failing then statusFailingEmoji else statusFlakyEmoji
  let sev := getDetailsSeverity passes runs
  let highlightEmoji := if sev.2 then statusNewTestEmoji else baseEmoji
  { id := testgridReportDetails
    status := jobData.overallStatus
    title := jobName
    url := jobBaseUrl ++ "#" ++ jobName
    severity := sev.1
    highlight := goRepeat highlightEmoji sev.1
    notes := failingNotes ++ [latestExec.1 ++ " of " ++ latestExec.2 ++ " passed recently"] }

/-- Per-dashboard record assembly (the worker body of
`assembleTestgridRequests`): always one summary record; then, unless
short/summary mode is on, one detail record appended per job whose overall
status is not Passing, in iteration order. -/
def assembleTestgridRecords (shortOn : Bool) (jobs : List (String × TestgridValue))
    (jobBaseUrl : String) (emojisOff : Bool) : List ReportDataRecord :=
  let records := [getSummary jobs]
  if !shortOn then
    jobs.foldl
      (fun acc jv =>
        if jv.2.overallStatus != Passing then acc ++ [getDetails jv.1 jv.2 jobBaseUrl emojisOff]
        else acc)
      records
  else records

/-! ### Issue age highlighting (transformIntoReportData, cmd/ci-reporter.go) -/

/-- `checkTimeBefore` (cmd/ci-reporter.go): Go parses the timestamp string
and tests `t.Before(u)`, a strict order on instants.  Instants are embedded
as integers and the parse is taken as given (an unparseable string yields
Go's zero time, an instant far in the past). -/
def checkTimeBefore (t u : ℤ) : Bool :=
  decide (t < u)

/-- The age-highlight fragment of `transformIntoReportData`:
`oldThreshold` embeds `time.Now().AddDate(0,-3,0)` (three months ago) and
`freshThreshold` embeds `time.Now().AddDate(0,0,-5)` (five days ago); the
stale-old marker is appended when the issue was created strictly before the
former, the fresh marker when it was NOT created strictly before the
latter. -/
def issueAgeHighlight (createdAt oldThreshold freshThreshold : ℤ) : String :=
  (if checkTimeBefore createdAt oldThreshold then statusOldEmoji else "")
    ++ (if !checkTimeBefore createdAt freshThreshold then statusNewEmoji else "")

/-! ### Helper lemmas -/

theorem toList_append (s t : String) : (s ++ t).toList = s.toList ++ t.toList :=
  String.data_append s t

theorem mk_toList (s : String) : String.mk s.toList = s :=
  rfl

theorem isPrefixOf_append_self (pat l : List Char) : pat.isPrefixOf (pat ++ l) = true := by
  induction pat with
  | nil => simp [List.isPrefixOf]
  | cons c t ih => simp [List.isPrefixOf, ih]

theorem hasSub_of_isPrefixOf {pat l : List Char} (h : pat.isPrefixOf l = true) :
    hasSub pat l = true := by
  cases l with
  | nil =>
    cases pat with
    | nil => rfl
    | cons c t => simp [List.isPrefixOf] at h
  | cons c t => simp [hasSub, h]

theorem hasSub_append_self (pat l : List Char) : hasSub pat (pat ++ l) = true :=
  hasSub_of_isPrefixOf (isPrefixOf_append_self pat l)

theorem removeAll_of_not_hasSub {pat l : List Char} (h : hasSub pat l = false) :
    removeAll pat l = l := by
  induction l with
  | nil => simp [removeAll]
  | cons c t ih =>
    rw [hasSub, Bool.or_eq_false_iff] at h
    rw [removeAll, dif_neg (by simp [h.1]), ih h.2]

theorem removeAll_append_self {pat : List Char} (l : List Char) (hp : pat ≠ []) :
    removeAll pat (pat ++ l) = removeAll pat l := by
  cases hpat : pat with
  | nil => exact absurd hpat hp
  | cons p ps =>
    rw [← hpat]
    have hcons : pat ++ l = p :: (ps ++ l) := by rw [hpat]; rfl
    rw [hcons, removeAll, ← hcons,
      dif_pos ⟨hp, isPrefixOf_append_self pat l⟩, List.drop_left]

/-! ### C1: severity scoring of `getDetails` -/

/-- C1.  For every detail record of a non-passing job, with `passes` and
`runs` the two parsed 1-2 digit capture groups: a run count of at most 5
yields Light severity plus the new-test flag regardless of the pass count;
otherwise the rate `passes / runs` yields High at or below 0.5, Medium at
or below 0.8, Light above 0.8.  In particular 3 of 10 is High, 9 of 10 is
Light, and any pass count over 3 runs is Light plus the new-test flag.
The record's severity field is exactly the scored severity. -/
theorem claim1_severity_scoring (passes runs : ℕ)
    (hp : passes < 100) (hr : runs < 100) :
    (runs ≤ 5 → getDetailsSeverity passes runs = (LightSeverity, true)) ∧
    (5 < runs → (passes : ℚ) / runs ≤ 0.5 →
      getDetailsSeverity passes runs = (HighSeverity, false)) ∧
    (5 < runs → 0.5 < (passes : ℚ) / runs → (passes : ℚ) / runs ≤ 0.8 →
      getDetailsSeverity passes runs = (MediumSeverity, false)) ∧
    (5 < runs → 0.8 < (passes : ℚ) / runs →
      getDetailsSeverity passes runs = (LightSeverity, false)) ∧
    getDetailsSeverity 3 10 = (HighSeverity, false) ∧
    getDetailsSeverity 9 10 = (LightSeverity, false) ∧
    (∀ p : ℕ, getDetailsSeverity p 3 = (LightSeverity, true)) ∧
    (∀ (jobName : String) (jobData : TestgridValue) (jobBaseUrl : String) (emojisOff : Bool),
      (getDetails jobName jobData jobBaseUrl emojisOff).severity =
        (getDetailsSeverity (digitsToNat (latestExecParams jobData.status).1.toList)
          (digitsToNat (latestExecParams jobData.status).2.toList)).1) := by
  refine ⟨?_, ?_, ?_, ?_, ?_, ?_, ?_, fun _ _ _ _ => rfl⟩
  · intro h
    have : (runs : ℚ) ≤ newTestThreshhold := by
      unfold newTestThreshhold; norm_num; exact_mod_cast h
    simp [getDetailsSeverity, this]
  · intro h hrate
    have h5 : ¬((runs : ℚ) ≤ newTestThreshhold) := by
      unfold newTestThreshhold; norm_num; exact_mod_cast h
    simp only [getDetailsSeverity, if_neg h5]
    rw [if_pos (by unfold thresholdWarning; exact_mod_cast hrate)]
  · intro h hlo hhi
    have h5 : ¬((runs : ℚ) ≤ newTestThreshhold) := by
      unfold newTestThreshhold; norm_num; exact_mod_cast h
    simp only [getDetailsSeverity, if_neg h5]
    rw [if_neg (by unfold thresholdWarning; push_neg; exact_mod_cast hlo),
      if_pos (by unfold thresholdInfo; exact_mod_cast hhi)]
  · intro h hrate
    have h5 : ¬((runs : ℚ) ≤ newTestThreshhold) := by
      unfold newTestThreshhold; norm_num; exact_mod_cast h
    simp only [getDetailsSeverity, if_neg h5]
    rw [if_neg (by unfold thresholdWarning; push_neg; nlinarith),
      if_neg (by unfold thresholdInfo; push_neg; exact_mod_cast hrate)]
  · norm_num [getDetailsSeverity, newTestThreshhold, thresholdWarning]
  · norm_num [getDetailsSeverity, newTestThreshhold, thresholdWarning, thresholdInfo]
  · intro p
    norm_num [getDetailsSeverity, newTestThreshhold]

/-- Witness for C1 at passes 3, runs 10 and at runs 3. -/
theorem claim1_witness :
    getDetailsSeverity 3 10 = (HighSeverity, false) ∧
    getDetailsSeverity 7 3 = (LightSeverity, true) := by
  have h := claim1_severity_scoring 3 10 (by norm_num) (by norm_num)
  exact ⟨h.2.2.2.2.1, h.2.2.2.2.2.2.1 7⟩

/-! ### C3: transport and decode failures during pagination -/

/-- An issue every exclusion rule of `filterGithubIssues` drops (it carries
the `priority/backlog` label), used as a concrete page payload. -/
def backlogIssue : GithubIssueElement :=
  { htmlURL := "https://github.com/kubernetes/kubernetes/issues/100"
    number := 100
    labels := [{ name := "priority/backlog" }] }

/-- C3, counterexample.  The claim says a transport or decode failure on a
page propagates to the caller of the fetch as a result value "without
aborting the whole process"; but `requestGithubIssues` calls `log.Fatalf`
on either failure, which exits the whole process (`FetchOutcome.fatal`) —
no error value ever reaches the caller, whose result type
(`GithubIssuesAfterId`) has no error channel at all. -/
theorem claim3_counterexample :
    requestGithubIssuesM [Except.error "connection reset"] =
      FetchOutcome.fatal "connection reset" :=
  rfl

/-- C3, amended.  A transport or decode failure on any page is fatal for
the whole process (`log.Fatalf`): the first page's failure aborts at once,
and a failure on a later page aborts too — the pages already fetched are
lost with the process, so no page is silently dropped, but no error value
propagates to the caller either. -/
theorem claim3_amended_fatal (e : String)
    (rest : List (Except String (List GithubIssueElement)))
    (issues : List GithubIssueElement) (h : issues ≠ []) :
    requestGithubIssuesM (Except.error e :: rest) = FetchOutcome.fatal e ∧
    requestGithubIssuesM (Except.ok issues :: Except.error e :: rest) =
      FetchOutcome.fatal e := by
  refine ⟨rfl, ?_⟩
  rw [requestGithubIssuesM, if_neg (by simpa using h)]
  rfl

/-- Witness for C3's amended theorem: a decode failure on page 2 kills a
fetch whose page 1 was served. -/
theorem claim3_witness :
    requestGithubIssuesM [Except.ok [backlogIssue], Except.error "invalid json"] =
      FetchOutcome.fatal "invalid json" :=
  (claim3_amended_fatal "invalid json" [] [backlogIssue] (by simp)).2

/-! ### C8: issue age highlighting -/

/-- C8, counterexample.  The claim says the stale-old and fresh markers can
appear together on some issue; they cannot: stale-old needs the creation
instant strictly before three-months-ago (embedded here as instant -90, in
days relative to now) and fresh needs it not strictly before five-days-ago
(instant -5), and three months ago always precedes five days ago. -/
theorem claim8_counterexample :
    ¬ ∃ createdAt : ℤ,
      goContains (issueAgeHighlight createdAt (-90) (-5)) statusOldEmoji = true ∧
      goContains (issueAgeHighlight createdAt (-90) (-5)) statusNewEmoji = true := by
  rintro ⟨c, h1, h2⟩
  unfold issueAgeHighlight checkTimeBefore at h1 h2
  by_cases hc1 : c < -90 <;> by_cases hc2 : c < -5
  · rw [if_pos (by simp [hc1]), if_neg (by simp [hc2])] at h2
    exact absurd h2 (by decide)
  · exact absurd (by omega : c < -5) hc2
  · rw [if_neg (by simp [hc1]), if_neg (by simp [hc2])] at h1
    exact absurd h1 (by decide)
  · rw [if_neg (by simp [hc1]), if_pos (by simp [hc2])] at h1
    exact absurd h1 (by decide)

/-- C8, amended.  On the issue path the highlight contains the stale-old
marker iff the issue was created more than three months before now, and
the fresh marker iff it was created within the last five days; since the
three-months-ago instant precedes the five-days-ago instant, the two
markers never appear together. -/
theorem claim8_amended (createdAt oldThreshold freshThreshold : ℤ)
    (h : oldThreshold ≤ freshThreshold) :
    (goContains (issueAgeHighlight createdAt oldThreshold freshThreshold) statusOldEmoji = true
      ↔ createdAt < oldThreshold) ∧
    (goContains (issueAgeHighlight createdAt oldThreshold freshThreshold) statusNewEmoji = true
      ↔ ¬ createdAt < freshThreshold) ∧
    ¬ (goContains (issueAgeHighlight createdAt oldThreshold freshThreshold) statusOldEmoji = true
        ∧ goContains (issueAgeHighlight createdAt oldThreshold freshThreshold) statusNewEmoji = true) := by
  unfold issueAgeHighlight checkTimeBefore
  by_cases hc1 : createdAt < oldThreshold
  · by_cases hc2 : createdAt < freshThreshold
    · rw [if_pos (by simp [hc1]), if_neg (by simp [hc2])]
      exact ⟨⟨fun _ => hc1, fun _ => by decide⟩,
        ⟨fun hx => absurd hx (by decide), fun hx => absurd hc2 hx⟩,
        fun hx => absurd hx.2 (by decide)⟩
    · exact absurd (hc1.trans_le h) hc2
  · by_cases hc2 : createdAt < freshThreshold
    · rw [if_neg (by simp [hc1]), if_neg (by simp [hc2])]
      exact ⟨⟨fun hx => absurd hx (by decide), fun hx => absurd hx hc1⟩,
        ⟨fun hx => absurd hx (by decide), fun hx => absurd hc2 hx⟩,
        fun hx => absurd hx.1 (by decide)⟩
    · rw [if_neg (by simp [hc1]), if_pos (by simp [hc2])]
      exact ⟨⟨fun hx => absurd hx (by decide), fun hx => absurd hx hc1⟩,
        ⟨fun _ => hc2, fun _ => by decide⟩,
        fun hx => absurd hx.1 (by decide)⟩

/-- Witness for C8's amended theorem at a fresh issue. -/
theorem claim8_witness :
    goContains (issueAgeHighlight 0 (-90) (-5)) statusNewEmoji = true :=
  (claim8_amended 0 (-90) (-5) (by norm_num)).2.1.mpr (by norm_num)

/-! ### C10: cards without a content reference -/

/-- C10.  In the card-resolution path a card with no content reference
contributes nothing — no issue-detail fetch, no record on the fan-in
channel — while every card with a content reference yields exactly one
fetch of that URL and exactly one record: the fetches are exactly the
content URLs in card order and the records are their overviews, so both
counts equal the number of cards carrying a content reference. -/
theorem claim10_cards (cards : List ProjectCard) (fetchDetail : String → ghIssueDetail) :
    (assembleCardRequests cards fetchDetail).1 = cards.filterMap (fun c => c.contentURL) ∧
    (assembleCardRequests cards fetchDetail).2 =
      (cards.filterMap (fun c => c.contentURL)).map (fun u => mkOverview (fetchDetail u)) ∧
    (assembleCardRequests cards fetchDetail).2.length =
      (cards.filter (fun c => c.contentURL.isSome)).length := by
  have key : (assembleCardRequests cards fetchDetail).1 = cards.filterMap (fun c => c.contentURL) ∧
      (assembleCardRequests cards fetchDetail).2 =
        (cards.filterMap (fun c => c.contentURL)).map (fun u => mkOverview (fetchDetail u)) := by
    induction cards with
    | nil => exact ⟨rfl, rfl⟩
    | cons card rest ih =>
      cases hc : card.contentURL with
      | none => simpa [assembleCardRequests, hc, List.filterMap_cons] using ih
      | some u => simpa [assembleCardRequests, hc, List.filterMap_cons] using ih
  refine ⟨key.1, key.2, ?_⟩
  rw [key.2, List.length_map, List.length_filterMap_eq_countP, List.countP_eq_length_filter]

/-! ### C5: the github issue exclusion policy -/

theorem filterFine_eq_true (i : GithubIssueElement) :
    filterFine i = true ↔
      (∀ l ∈ i.labels,
        goContains l.name "priority/backlog" = false ∧
        goContains l.name "triage/accepted" = false ∧
        goContains l.name "lifecycle/rotten" = false ∧
        goContains l.name "lifecycle/stale" = false) ∧
      goContains i.htmlURL "pull" = false := by
  have aux : ∀ (labels : List Label) (b : Bool),
      (labels.foldl
        (fun fine label =>
          (((fine && !goContains label.name "priority/backlog")
              && !goContains label.name "triage/accepted")
              && !goContains label.name "lifecycle/rotten")
              && !goContains label.name "lifecycle/stale")
        b = true)
        ↔ (b = true ∧ ∀ l ∈ labels,
            goContains l.name "priority/backlog" = false ∧
            goContains l.name "triage/accepted" = false ∧
            goContains l.name "lifecycle/rotten" = false ∧
            goContains l.name "lifecycle/stale" = false) := by
    intro labels
    induction labels with
    | nil => intro b; simp
    | cons a t ih =>
      intro b
      rw [List.foldl_cons, ih]
      simp only [Bool.and_eq_true, Bool.not_eq_true', List.forall_mem_cons]
      tauto
  unfold filterFine
  simp only [Bool.and_eq_true, Bool.not_eq_true', aux]
  tauto

/-- C5.  The filter excludes an issue exactly when some label of it
contains `priority/backlog`, `triage/accepted`, `lifecycle/rotten` or
`lifecycle/stale`, or its HTML URL marks it a pull request; every other
issue is kept. -/
theorem claim5_filter_iff (issues : List GithubIssueElement) (i : GithubIssueElement) :
    i ∈ filterGithubIssues issues ↔
      i ∈ issues ∧
      ¬ ((∃ l ∈ i.labels,
            goContains l.name "priority/backlog" = true ∨
            goContains l.name "triage/accepted" = true ∨
            goContains l.name "lifecycle/rotten" = true ∨
            goContains l.name "lifecycle/stale" = true) ∨
          goContains i.htmlURL "pull" = true) := by
  rw [filterGithubIssues, List.mem_filter, filterFine_eq_true]
  apply and_congr_right
  intro _
  push_neg
  simp only [Bool.not_eq_true, not_or]

/-- An issue none of the exclusion rules hits. -/
def failingTestIssue : GithubIssueElement :=
  { htmlURL := "https://github.com/kubernetes/kubernetes/issues/104000"
    number := 104000
    labels := [{ name := "kind/failing-test" }, { name := "sig/node" }] }

/-- Witness for C5: a clean failing-test issue survives the filter next to
a backlog issue that does not. -/
theorem claim5_witness :
    failingTestIssue ∈ filterGithubIssues [backlogIssue, failingTestIssue] :=
  (claim5_filter_iff [backlogIssue, failingTestIssue] failingTestIssue).mpr
    ⟨by simp, by decide⟩

/-! ### C6: card-path SIG normalization -/

/-- C6.  On the card path only the first label containing `sig/` is used;
`sig/cli` normalizes to upper-case `CLI`, `sig/cluster-lifecycle` to
lower-case `cluster-lifecycle`, and every other name to its title case
(`strings.Title`: a rune after a separator is title-cased, where ASCII
digits and underscore are NOT separators), e.g. `sig/node` to `Node`,
`sig/a_b` to `A_b` and `sig/a1b` to `A1b`. -/
theorem claim6_sig_normalization :
    cardSig ["sig/cli"] = "CLI" ∧
    cardSig ["sig/cluster-lifecycle"] = "cluster-lifecycle" ∧
    cardSig ["sig/node"] = "Node" ∧
    cardSig ["sig/a_b"] = "A_b" ∧
    cardSig ["sig/a1b"] = "A1b" ∧
    (∀ (first : String) (rest : List String), goContains first "sig/" = true →
      cardSig (first :: rest) = cardSig [first]) ∧
    (∀ name : String, goContains name "sig/" = false →
      goEqualFold (goTitle name) "cli" = false →
      goEqualFold (goTitle name) "cluster-lifecycle" = false →
      cardSig ["sig/" ++ name] = goTitle name) := by
  refine ⟨?_, ?_, ?_, ?_, ?_, ?_, ?_⟩
  · simp [cardSig, List.find?, goContains, hasSub, removeAllStr, removeAll, goTitle,
      goTitleAux, goIsSeparator, goEqualFold, goToUpper, goToLower]
  · simp [cardSig, List.find?, goContains, hasSub, removeAllStr, removeAll, goTitle,
      goTitleAux, goIsSeparator, goEqualFold, goToUpper, goToLower]
  · simp [cardSig, List.find?, goContains, hasSub, removeAllStr, removeAll, goTitle,
      goTitleAux, goIsSeparator, goEqualFold, goToUpper, goToLower]
  · simp [cardSig, List.find?, goContains, hasSub, removeAllStr, removeAll, goTitle,
      goTitleAux, goIsSeparator, goEqualFold, goToUpper, goToLower]
  · simp [cardSig, List.find?, goContains, hasSub, removeAllStr, removeAll, goTitle,
      goTitleAux, goIsSeparator, goEqualFold, goToUpper, goToLower]
  · intro first rest h
    simp [cardSig, List.find?, h]
  · intro name h1 h2 h3
    have hfind : goContains ("sig/" ++ name) "sig/" = true := by
      unfold goContains
      rw [toList_append]
      exact hasSub_append_self _ _
    have hrm : removeAllStr ("sig/" ++ name) "sig/" = name := by
      unfold removeAllStr
      rw [toList_append, removeAll_append_self _ (by decide),
        removeAll_of_not_hasSub h1, mk_toList]
    have hf2 : List.find? (fun nm => goContains nm "sig/") ["sig/" ++ name] =
        some ("sig/" ++ name) := List.find?_cons_of_pos _ hfind
    have e : cardSig ["sig/" ++ name] =
        (let sig := goTitle (removeAllStr ("sig/" ++ name) "sig/")
         let sig := if goEqualFold sig "cli" then goToUpper sig else sig
         let sig := if goEqualFold sig "cluster-lifecycle" then goToLower sig else sig
         sig) := by
      unfold cardSig
      rw [hf2]
    rw [e, hrm]
    simp [h2, h3]

/-! ### C2: pagination termination -/

theorem requestOkPages (pages : List (List GithubIssueElement))
    (h : ∀ p ∈ pages, p ≠ []) :
    requestGithubIssuesM (pages.map Except.ok) =
      FetchOutcome.ok (pages.length + 1) (pages.map filterGithubIssues ++ [[]]) := by
  induction pages with
  | nil => rfl
  | cons p ps ih =>
    have hp : p ≠ [] := h p (List.mem_cons_self _ _)
    have hps := ih (fun q hq => h q (List.mem_cons_of_mem _ hq))
    rw [List.map_cons]
    rw [requestGithubIssuesM, if_neg (by simpa using hp), hps]
    simp

theorem paginate_ne_nil (perPage : ℕ) (l : List GithubIssueElement) :
    ∀ p ∈ paginate perPage l, p ≠ [] := by
  induction l using paginate.induct perPage with
  | case1 x hx =>
    rw [paginate.eq_def, if_pos hx]
    simp
  | case2 x hx ih =>
    rw [paginate.eq_def, if_neg hx]
    rw [not_or] at hx
    intro p hp
    rcases List.mem_cons.mp hp with hph | hpt
    · subst hph
      simp only [ne_eq, List.take_eq_nil_iff, not_or]
      exact ⟨hx.2, hx.1⟩
    · exact ih p hpt

theorem paginate_length (perPage : ℕ) (hP : 0 < perPage) (l : List GithubIssueElement) :
    (paginate perPage l).length = (l.length + perPage - 1) / perPage := by
  induction l using paginate.induct perPage with
  | case1 x hx =>
    rw [paginate.eq_def, if_pos hx]
    rcases hx with hx | hx
    · subst hx
      simp [Nat.div_eq_of_lt (by omega : perPage - 1 < perPage)]
    · omega
  | case2 x hx ih =>
    rw [paginate.eq_def, if_neg hx]
    rw [not_or] at hx
    have hlen : 0 < x.length := List.length_pos.mpr hx.1
    simp only [List.length_cons, ih, List.length_drop]
    rcases le_or_lt x.length perPage with hle | hlt
    · have h0 : x.length - perPage = 0 := by omega
      rw [h0]
      rw [Nat.div_eq_of_lt (by omega : 0 + perPage - 1 < perPage)]
      rw [Nat.div_eq_of_lt_le (k := 1) (by omega) (by omega)]
    · have h1 : x.length - perPage + perPage - 1 = x.length - 1 := by omega
      have h2 : x.length + perPage - 1 = (x.length - 1) + perPage := by omega
      rw [h1, h2, Nat.add_div_right _ hP]

/-- C2.  Pagination terminates exactly when a raw page comes back empty:
for a result set of N issues served in pages of `perPage` items, exactly
`ceil(N / perPage) + 1 = (N + perPage - 1) / perPage + 1` page requests
are issued (the trailing empty page is always fetched), and a page whose
items are all filtered out still causes the next page to be requested —
one backlog-labelled issue produces two page requests even though every
batch sent on is empty. -/
theorem claim2_pagination (items : List GithubIssueElement) (perPage : ℕ) (hP : 0 < perPage) :
    requestGithubIssuesM ((paginate perPage items).map Except.ok) =
      FetchOutcome.ok ((items.length + perPage - 1) / perPage + 1)
        ((paginate perPage items).map filterGithubIssues ++ [[]]) ∧
    requestGithubIssuesM [Except.ok [backlogIssue]] = FetchOutcome.ok 2 [[], []] := by
  refine ⟨?_, ?_⟩
  · rw [requestOkPages _ (paginate_ne_nil perPage items), paginate_length perPage hP items]
  · rfl

/-- Witness for C2: the empty result set costs one page request. -/
theorem claim2_witness :
    requestGithubIssuesM ((paginate 20 []).map Except.ok) = FetchOutcome.ok 1 [[]] := by
  have h := (claim2_pagination [] 20 (by norm_num)).1
  simpa [paginate] using h

/-! ### C7 and C9: the dashboard summary and detail records -/

theorem foldl_countStep (l : List (String × TestgridValue)) :
    ∀ acc : StatusCounts,
      l.foldl countStep acc =
        { total := acc.total
          passing := acc.passing + l.countP (fun jv => jv.2.overallStatus == Passing)
          failing := acc.failing + l.countP (fun jv =>
            !(jv.2.overallStatus == Passing) && (jv.2.overallStatus == Failing))
          flaky := acc.flaky + l.countP (fun jv =>
            !(jv.2.overallStatus == Passing) && !(jv.2.overallStatus == Failing)
              && (jv.2.overallStatus == Flaky))
          stale := acc.stale + l.countP (fun jv =>
            !(jv.2.overallStatus == Passing) && !(jv.2.overallStatus == Failing)
              && !(jv.2.overallStatus == Flaky)) } := by
  induction l with
  | nil => intro acc; simp
  | cons a t ih =>
    intro acc
    rw [List.foldl_cons, ih]
    unfold countStep
    by_cases h1 : (a.2.overallStatus == Passing) = true
    · simp [h1, List.countP_cons, StatusCounts.mk.injEq]
      omega
    · replace h1 : (a.2.overallStatus == Passing) = false := by simpa using h1
      by_cases h2 : (a.2.overallStatus == Failing) = true
      · simp [h1, h2, List.countP_cons, StatusCounts.mk.injEq]
        omega
      · replace h2 : (a.2.overallStatus == Failing) = false := by simpa using h2
        by_cases h3 : (a.2.overallStatus == Flaky) = true
        · simp [h1, h2, h3, List.countP_cons, StatusCounts.mk.injEq]
          omega
        · replace h3 : (a.2.overallStatus == Flaky) = false := by simpa using h3
          simp [h1, h2, h3, List.countP_cons, StatusCounts.mk.injEq]
          omega

theorem statusCounts_spec (jobs : List (String × TestgridValue)) :
    (countStatuses jobs).total = jobs.length ∧
    (countStatuses jobs).passing =
      (jobs.filter (fun jv => jv.2.overallStatus == Passing)).length ∧
    (countStatuses jobs).failing =
      (jobs.filter (fun jv => jv.2.overallStatus == Failing)).length ∧
    (countStatuses jobs).flaky =
      (jobs.filter (fun jv => jv.2.overallStatus == Flaky)).length ∧
    (countStatuses jobs).stale =
      (jobs.filter (fun jv =>
        !(jv.2.overallStatus == Passing) && !(jv.2.overallStatus == Failing)
          && !(jv.2.overallStatus == Flaky))).length := by
  have hfail : ∀ jv : String × TestgridValue,
      (!(jv.2.overallStatus == Passing) && (jv.2.overallStatus == Failing))
        = (jv.2.overallStatus == Failing) := by
    intro jv
    cases hb : jv.2.overallStatus == Failing with
    | false => simp
    | true =>
      have hs : jv.2.overallStatus = Failing := eq_of_beq hb
      rw [hs]
      decide
  have hflaky : ∀ jv : String × TestgridValue,
      (!(jv.2.overallStatus == Passing) && !(jv.2.overallStatus == Failing)
        && (jv.2.overallStatus == Flaky)) = (jv.2.overallStatus == Flaky) := by
    intro jv
    cases hb : jv.2.overallStatus == Flaky with
    | false => simp
    | true =>
      have hs : jv.2.overallStatus = Flaky := eq_of_beq hb
      rw [hs]
      decide
  rw [countStatuses, foldl_countStep]
  refine ⟨rfl, ?_, ?_, ?_, ?_⟩
  · show 0 + jobs.countP (fun jv => jv.2.overallStatus == Passing) = _
    rw [Nat.zero_add, List.countP_eq_length_filter]
  · show 0 + jobs.countP (fun jv =>
        !(jv.2.overallStatus == Passing) && (jv.2.overallStatus == Failing)) = _
    have hc : jobs.countP (fun jv =>
          !(jv.2.overallStatus == Passing) && (jv.2.overallStatus == Failing))
        = jobs.countP (fun jv : String × TestgridValue => jv.2.overallStatus == Failing) :=
      List.countP_congr (fun jv _ => by rw [hfail jv])
    rw [Nat.zero_add, hc, List.countP_eq_length_filter]
  · show 0 + jobs.countP (fun jv =>
        !(jv.2.overallStatus == Passing) && !(jv.2.overallStatus == Failing)
          && (jv.2.overallStatus == Flaky)) = _
    have hc : jobs.countP (fun jv =>
          !(jv.2.overallStatus == Passing) && !(jv.2.overallStatus == Failing)
            && (jv.2.overallStatus == Flaky))
        = jobs.countP (fun jv : String × TestgridValue => jv.2.overallStatus == Flaky) :=
      List.countP_congr (fun jv _ => by rw [hflaky jv])
    rw [Nat.zero_add, hc, List.countP_eq_length_filter]
  · show 0 + jobs.countP (fun jv =>
        !(jv.2.overallStatus == Passing) && !(jv.2.overallStatus == Failing)
          && !(jv.2.overallStatus == Flaky)) = _
    rw [Nat.zero_add, List.countP_eq_length_filter]

theorem foldl_if_append {α β : Type} (p : α → Bool) (g : α → β) (l : List α) :
    ∀ acc : List β,
      l.foldl (fun acc x => if p x then acc ++ [g x] else acc) acc =
        acc ++ (l.filter p).map g := by
  induction l with
  | nil => intro acc; simp
  | cons a t ih =>
    intro acc
    rw [List.foldl_cons]
    by_cases hp : p a
    · rw [if_pos hp, ih, List.filter_cons_of_pos hp]
      simp
    · rw [if_neg hp, ih, List.filter_cons_of_neg hp]

/-- C7.  Per dashboard: in short/summary mode the emitted record list is
exactly the one aggregate summary record; otherwise it is that summary
record followed by one detail record per job whose status is not Passing
(and only those).  The summary record carries the reserved summary id,
detail records the detail id, and the status buckets count Total as all
jobs, Passing/Failing/Flaky as the jobs with exactly that status, and
Stale as every job whose status is none of the three. -/
theorem claim7_records (jobs : List (String × TestgridValue)) (jobBaseUrl : String)
    (emojisOff : Bool) :
    assembleTestgridRecords true jobs jobBaseUrl emojisOff = [getSummary jobs] ∧
    assembleTestgridRecords false jobs jobBaseUrl emojisOff =
      getSummary jobs ::
        (jobs.filter (fun jv => jv.2.overallStatus != Passing)).map
          (fun jv => getDetails jv.1 jv.2 jobBaseUrl emojisOff) ∧
    (getSummary jobs).id = testgridReportSummary ∧
    (∀ (jobName : String) (jobData : TestgridValue),
      (getDetails jobName jobData jobBaseUrl emojisOff).id = testgridReportDetails) ∧
    (countStatuses jobs).total = jobs.length ∧
    (countStatuses jobs).passing =
      (jobs.filter (fun jv => jv.2.overallStatus == Passing)).length ∧
    (countStatuses jobs).failing =
      (jobs.filter (fun jv => jv.2.overallStatus == Failing)).length ∧
    (countStatuses jobs).flaky =
      (jobs.filter (fun jv => jv.2.overallStatus == Flaky)).length ∧
    (countStatuses jobs).stale =
      (jobs.filter (fun jv =>
        !(jv.2.overallStatus == Passing) && !(jv.2.overallStatus == Failing)
          && !(jv.2.overallStatus == Flaky))).length := by
  obtain ⟨ht, hpass, hfail, hflaky, hstale⟩ := statusCounts_spec jobs
  refine ⟨rfl, ?_, rfl, fun _ _ => rfl, ht, hpass, hfail, hflaky, hstale⟩
  show jobs.foldl _ [getSummary jobs] = _
  rw [foldl_if_append (fun jv => jv.2.overallStatus != Passing)
    (fun jv => getDetails jv.1 jv.2 jobBaseUrl emojisOff) jobs [getSummary jobs]]
  rfl

/-- C9.  The summary record's notes begin with exactly four count lines in
the fixed order total, passing, flaky, failing; a fifth stale line is
appended exactly when the stale count is non-zero, and with no stale job
no stale line appears at all. -/
theorem claim9_summary_notes (jobs : List (String × TestgridValue)) :
    (getSummary jobs).notes.take 4 =
      [toString (countStatuses jobs).total ++ " jobs total",
       toString (countStatuses jobs).passing ++ " jobs passing",
       toString (countStatuses jobs).flaky ++ " jobs flaky",
       toString (countStatuses jobs).failing ++ " jobs failing"] ∧
    ((countStatuses jobs).stale = 0 →
      (getSummary jobs).notes =
        [toString (countStatuses jobs).total ++ " jobs total",
         toString (countStatuses jobs).passing ++ " jobs passing",
         toString (countStatuses jobs).flaky ++ " jobs flaky",
         toString (countStatuses jobs).failing ++ " jobs failing"]) ∧
    ((countStatuses jobs).stale ≠ 0 →
      (getSummary jobs).notes =
        [toString (countStatuses jobs).total ++ " jobs total",
         toString (countStatuses jobs).passing ++ " jobs passing",
         toString (countStatuses jobs).flaky ++ " jobs flaky",
         toString (countStatuses jobs).failing ++ " jobs failing",
         toString (countStatuses jobs).stale ++ " jobs stale"]) := by
  have e1 : " jobs " ++ goToLower Total = " jobs total" := rfl
  have e2 : " jobs " ++ goToLower Passing = " jobs passing" := rfl
  have e3 : " jobs " ++ goToLower Flaky = " jobs flaky" := rfl
  have e4 : " jobs " ++ goToLower Failing = " jobs failing" := rfl
  have e5 : " jobs " ++ goToLower Stale = " jobs stale" := rfl
  by_cases h : (countStatuses jobs).stale = 0
  · refine ⟨?_, fun _ => ?_, fun hne => absurd h hne⟩ <;>
      simp [getSummary, h, String.append_assoc, e1, e2, e3, e4, e5]
  · refine ⟨?_, fun he => absurd he h, fun _ => ?_⟩ <;>
      simp [getSummary, h, String.append_assoc, e1, e2, e3, e4, e5]

/-! ### C4: board column resolution -/

theorem findCardsID_min (cols : List ProjectColumn) (kw : String)
    (h : ∃ c ∈ cols, c.name = some kw) :
    ∃ c ∈ cols, c.name = some kw ∧
      findCardsID (Except.ok cols) kw = FindCardsOutcome.ok c.id ∧
      ∀ c2 ∈ cols, c2.name = some kw → c.id ≤ c2.id := by
  obtain ⟨c0, hc0, hc0n⟩ := h
  have hne : cols.filter (fun v => v.name == some kw) ≠ [] := by
    intro hnil
    have hmem : c0 ∈ cols.filter (fun v => v.name == some kw) :=
      List.mem_filter.mpr ⟨hc0, by simp [hc0n]⟩
    rw [hnil] at hmem
    exact absurd hmem (List.not_mem_nil c0)
  have htrans : ∀ a b c : ProjectColumn,
      decide (a.id ≤ b.id) = true → decide (b.id ≤ c.id) = true →
        decide (a.id ≤ c.id) = true := by
    intro a b c hab hbc
    rw [decide_eq_true_eq] at *
    omega
  have htotal : ∀ a b : ProjectColumn,
      (decide (a.id ≤ b.id) || decide (b.id ≤ a.id)) = true := by
    intro a b
    rcases le_total a.id b.id with hab | hab <;> simp [hab]
  have hperm := List.mergeSort_perm (cols.filter (fun v => v.name == some kw))
    (fun a b => decide (a.id ≤ b.id))
  have hsorted := List.sorted_mergeSort
    htrans htotal (cols.filter (fun v => v.name == some kw))
  have hrep : findCardsID (Except.ok cols) kw =
      (match (cols.filter (fun v => v.name == some kw)).mergeSort
          (fun a b => decide (a.id ≤ b.id)) with
        | [] => FindCardsOutcome.indexPanic
        | c :: _ => FindCardsOutcome.ok c.id) := rfl
  rw [hrep]
  cases hms : (cols.filter (fun v => v.name == some kw)).mergeSort
      (fun a b => decide (a.id ≤ b.id)) with
  | nil =>
    rw [hms] at hperm
    have hlen := hperm.length_eq
    simp only [List.length_nil] at hlen
    exact absurd (List.eq_nil_of_length_eq_zero hlen.symm) hne
  | cons c t =>
    rw [hms] at hperm hsorted
    have hmemc : c ∈ cols.filter (fun v => v.name == some kw) :=
      hperm.mem_iff.mp (List.mem_cons_self c t)
    have hcparts := List.mem_filter.mp hmemc
    have hcn : c.name = some kw := by simpa using hcparts.2
    refine ⟨c, hcparts.1, hcn, rfl, ?_⟩
    intro c2 hc2 hc2n
    have hmem2 : c2 ∈ c :: t := by
      exact hperm.mem_iff.mpr (List.mem_filter.mpr ⟨hc2, by simp [hc2n]⟩)
    rcases List.mem_cons.mp hmem2 with he | ht
    · rw [he]
    · have := List.rel_of_pairwise_cons hsorted ht
      exact of_decide_eq_true this

theorem findCardsID_nomatch (cols : List ProjectColumn) (kw : String)
    (h : ∀ c ∈ cols, c.name ≠ some kw) :
    findCardsID (Except.ok cols) kw = FindCardsOutcome.indexPanic := by
  have hfil : cols.filter (fun v => v.name == some kw) = [] := by
    rw [List.filter_eq_nil]
    intro a ha
    simp [h a ha]
  have hrep : findCardsID (Except.ok cols) kw =
      (match (cols.filter (fun v => v.name == some kw)).mergeSort
          (fun a b => decide (a.id ≤ b.id)) with
        | [] => FindCardsOutcome.indexPanic
        | c :: _ => FindCardsOutcome.ok c.id) := rfl
  rw [hrep, hfil, List.mergeSort_nil]

/-- C4, counterexample.  The claim says column resolution "fails (returns
an error)" when no column's name matches the keyword; but `findCardsID`
only returns an error when listing the columns itself fails — with a
successfully listed board containing no matching column, the source
indexes `resolvedColumns[0]` on an empty slice, a runtime index-out-of-
range panic (`indexPanic`), not an error return. -/
theorem claim4_counterexample :
    findCardsID (Except.ok [{ id := 5, name := some "Observing" }]) "Resolved" =
      FindCardsOutcome.indexPanic :=
  findCardsID_nomatch _ _ (by simp)

/-- C4, amended.  Column resolution returns the identifier of a column
whose name exactly equals the keyword, the lowest identifier when several
share the name (so `[{id 5, Resolved}, {id 2, Resolved}]` resolves to 2);
when no column matches it PANICS with an index-out-of-range failure
rather than returning an error (the only error return is a failure of the
column-listing call itself). -/
theorem claim4_amended (cols : List ProjectColumn) (kw : String) :
    ((∃ c ∈ cols, c.name = some kw) →
      ∃ c ∈ cols, c.name = some kw ∧
        findCardsID (Except.ok cols) kw = FindCardsOutcome.ok c.id ∧
        ∀ c2 ∈ cols, c2.name = some kw → c.id ≤ c2.id) ∧
    ((¬ ∃ c ∈ cols, c.name = some kw) →
      findCardsID (Except.ok cols) kw = FindCardsOutcome.indexPanic) ∧
    findCardsID (Except.error ()) kw = FindCardsOutcome.apiError ∧
    findCardsID
        (Except.ok [{ id := 5, name := some "Resolved" }, { id := 2, name := some "Resolved" }])
        "Resolved" = FindCardsOutcome.ok 2 := by
  refine ⟨findCardsID_min cols kw, ?_, rfl, ?_⟩
  · intro h
    push_neg at h
    exact findCardsID_nomatch cols kw h
  · obtain ⟨c, hc, hcn, heq, hmin⟩ :=
      findCardsID_min
        [{ id := 5, name := some "Resolved" }, { id := 2, name := some "Resolved" }]
        "Resolved" ⟨{ id := 2, name := some "Resolved" }, by simp, rfl⟩
    have h2 : c.id ≤ 2 := hmin { id := 2, name := some "Resolved" } (by simp) rfl
    rcases List.mem_cons.mp hc with he | ht
    · rw [he] at h2
      norm_num at h2
    · rcases List.mem_cons.mp ht with he | habs
      · rw [he] at heq
        exact heq
      · exact absurd habs (List.not_mem_nil _)

end CiReporter
